import Mathlib

/-!
Verification of the Sugarland-APP core: the pricing engine
(`src-tauri/src/pricing.rs`) and the NLP entity extractor
(`src-tauri/src/nlp.rs`), shallowly embedded in Lean 4.

Modelling conventions:
* Rust `f64` currency arithmetic is modelled over `ℚ`; `f64::round`
  (round half away from zero) is modelled by `rnd`.
* Rust strings are Lean `String`s / `List Char`; the ASCII-only case
  conversions and character classes of the relevant code paths are
  modelled with explicit ASCII-range definitions (the reference data in
  the source is ASCII).
* The `regex` crate patterns used by `find_model` all have the shape
  `\b( R )\b` where `R` only matches word characters, so a match is
  exactly a maximal word-character run ("token") of the haystack that
  matches `R` in full, and leftmost matching is matching the first such
  token; these patterns are embedded as total-token recognizers.
  `extract_screen_size`'s pattern can match non-word characters, so it
  is embedded as a positional backtracking matcher.
-/

namespace Sugarland

set_option maxHeartbeats 2000000

/-! ### Generic character / string helpers -/

/-- ASCII word character, modelling the regex crate's `\w` (`\b` is defined
from it) on the ASCII range. -/
def isWordChar (c : Char) : Bool := c.isAlphanum || c == '_'

def isWordOpt : Option Char → Bool
  | none => false
  | some c => isWordChar c

/-- A regex word boundary `\b` sits between two adjacent positions exactly
when one side is a word character and the other is not (or is the edge). -/
def bnd (a b : Option Char) : Bool := isWordOpt a != isWordOpt b

/-- `startsL w l`: `w` is a prefix of `l`. -/
def startsL : List Char → List Char → Bool
  | [], _ => true
  | _ :: _, [] => false
  | a :: as, b :: bs => a == b && startsL as bs

/-- `subL needle hay`: `needle` occurs contiguously in `hay`
(Rust `str::contains`). -/
def subL (needle : List Char) : List Char → Bool
  | [] => startsL needle []
  | c :: cs => startsL needle (c :: cs) || subL needle cs

/-- Rust `str::to_lowercase`, ASCII model (the vendor names, brand names
and titles exercised here are ASCII). -/
def lowerStr (s : String) : String := String.mk (s.data.map Char.toLower)

/-- Rust `str::to_uppercase`, ASCII model. -/
def upperStr (s : String) : String := String.mk (s.data.map Char.toUpper)

/-- `strContainsB hay needle` models Rust `hay.contains(needle)`. -/
def strContainsB (hay needle : String) : Bool := subL needle.data hay.data

/-! ### Pricing engine (`pricing.rs`) -/

/-- `Vendor` record from `pricing.rs` (currency fields as `ℚ`). -/
structure Vendor where
  id : String
  name : String
  cost_coefficient : ℚ
  min_price_margin : ℚ
  is_active : Bool
deriving DecidableEq

/-- `f64::round`: round half away from zero. -/
def rnd (x : ℚ) : ℤ := if 0 ≤ x then ⌊x + 1/2⌋ else -⌊-x + 1/2⌋

/-- `(x * 100.0).round() / 100.0`: round to two decimal places,
half away from zero. -/
def round2 (x : ℚ) : ℚ := (rnd (x * 100) : ℚ) / 100

/-- The vendor-matching test in `calculate_cost`:
`source.to_lowercase().contains(&v.name.to_lowercase())`. -/
def vendorMatches (source : String) (v : Vendor) : Bool :=
  strContainsB (lowerStr source) (lowerStr v.name)

/-- Vendor resolution in `calculate_cost`: first vendor whose lowered name
occurs in the lowered source, else the vendor named `"Amazon Bstock"`. -/
def resolveVendor (vendors : List Vendor) (source : String) : Option Vendor :=
  match vendors.find? (vendorMatches source) with
  | some v => some v
  | none => vendors.find? (fun v => v.name == "Amazon Bstock")

/-- `PricingEngine::calculate_cost`. Returns
`(cost_price, min_price, vendor_name)`. -/
def calculate_cost (vendors : List Vendor) (retail_price : ℚ) (source : String) :
    ℚ × ℚ × String :=
  match resolveVendor vendors source with
  | some v =>
    let cost := round2 (retail_price * v.cost_coefficient)
    (cost, round2 (cost + retail_price * v.min_price_margin), v.name)
  | none => (0, 0, "Unknown")

/-- The vendor snapshot from the unit tests in `pricing.rs`
(`make_engine`). -/
def testVendors : List Vendor :=
  [ ⟨"bestbuy", "Best Buy", 0.14, 0.10, true⟩,
    ⟨"wayfair", "Wayfair", 0.07, 0.10, true⟩,
    ⟨"mech", "Mech/PDX7", 0.20, 0.10, true⟩,
    ⟨"amazon", "Amazon Bstock", 0.20, 0.10, true⟩ ]

/-! ### Rounding lemmas -/

theorem rnd_intCast (n : ℤ) : rnd (n : ℚ) = n := by
  unfold rnd
  have h12 : ⌊(1 : ℚ)/2⌋ = 0 := by norm_num [Int.floor_eq_zero_iff]
  by_cases h : (0 : ℚ) ≤ (n : ℚ)
  · rw [if_pos h, Int.floor_int_add, h12, Int.add_zero]
  · rw [if_neg h]
    have : -(n : ℚ) + 1/2 = ((-n : ℤ) : ℚ) + 1/2 := by push_cast; ring
    rw [this, Int.floor_int_add, h12]
    omega

theorem rnd_nonneg {x : ℚ} (hx : 0 ≤ x) : 0 ≤ rnd x := by
  unfold rnd
  rw [if_pos hx]
  exact Int.le_floor.mpr (by push_cast; linarith)

theorem rnd_int_add (n : ℤ) (x : ℚ) (hn : 0 ≤ n) (hx : 0 ≤ x) :
    rnd ((n : ℚ) + x) = n + rnd x := by
  unfold rnd
  have hnx : (0 : ℚ) ≤ (n : ℚ) + x := by positivity
  rw [if_pos hnx, if_pos hx, add_assoc, Int.floor_int_add]

theorem rnd_mono {x y : ℚ} (h : x ≤ y) : rnd x ≤ rnd y := by
  unfold rnd
  by_cases hx : (0 : ℚ) ≤ x
  · rw [if_pos hx, if_pos (le_trans hx h)]
    exact Int.floor_le_floor (by linarith)
  · rw [if_neg hx]
    by_cases hy : (0 : ℚ) ≤ y
    · rw [if_pos hy]
      have h1 : (0 : ℤ) ≤ ⌊y + 1/2⌋ := Int.le_floor.mpr (by push_cast; linarith)
      have h2 : (0 : ℤ) ≤ ⌊-x + 1/2⌋ := Int.le_floor.mpr (by push_cast; linarith)
      omega
    · rw [if_neg hy]
      have : ⌊-y + 1/2⌋ ≤ ⌊-x + 1/2⌋ := Int.floor_le_floor (by linarith)
      omega

/-- `round2` is the identity on exact two-decimal values. -/
theorem round2_div100 (k : ℤ) : round2 ((k : ℚ) / 100) = (k : ℚ) / 100 := by
  unfold round2
  rw [div_mul_cancel₀ _ (by norm_num : (100 : ℚ) ≠ 0), rnd_intCast]

theorem round2_nonneg {x : ℚ} (hx : 0 ≤ x) : 0 ≤ round2 x := by
  unfold round2
  have := rnd_nonneg (x := x * 100) (by positivity)
  positivity

/-- Adding an exact nonnegative two-decimal value commutes with `round2`
on nonnegative arguments. -/
theorem round2_add_div100 (k : ℤ) (x : ℚ) (hk : 0 ≤ k) (hx : 0 ≤ x) :
    round2 ((k : ℚ) / 100 + x) = (k : ℚ) / 100 + round2 x := by
  unfold round2
  have h1 : ((k : ℚ) / 100 + x) * 100 = (k : ℚ) + x * 100 := by ring
  rw [h1, rnd_int_add k (x * 100) hk (by positivity)]
  push_cast
  ring

theorem round2_mono {x y : ℚ} (h : x ≤ y) : round2 x ≤ round2 y := by
  unfold round2
  have := rnd_mono (x := x * 100) (y := y * 100) (by linarith)
  have h100 : (0 : ℚ) ≤ 100 := by norm_num
  exact div_le_div_of_nonneg_right (by exact_mod_cast this) h100

/-- `round2` fixes any value that is an exact multiple of `1/100`. -/
theorem round2_val (x : ℚ) (k : ℤ) (h : x * 100 = (k : ℚ)) : round2 x = x := by
  unfold round2
  rw [h, rnd_intCast]
  field_simp
  linarith [h]

/-- `List.find?` returns the element at the first index whose predicate
holds (first-match-wins iteration order). -/
theorem find?_first {α : Type} (p : α → Bool) (l : List α) (i : Nat) (h : i < l.length)
    (hp : p (l.get ⟨i, h⟩) = true)
    (hmin : ∀ j (hj : j < l.length), j < i → p (l.get ⟨j, hj⟩) = false) :
    l.find? p = some (l.get ⟨i, h⟩) := by
  induction l generalizing i with
  | nil => simp at h
  | cons a t ih =>
    cases i with
    | zero =>
      exact List.find?_cons_of_pos t hp
    | succ i' =>
      have ha : p a = false := hmin 0 (Nat.succ_pos _) (Nat.succ_pos i')
      rw [List.find?_cons_of_neg t (by simp [ha])]
      exact ih i' (Nat.lt_of_succ_lt_succ h) hp
        (fun j hj hlt => hmin (j + 1) (Nat.succ_lt_succ hj) (Nat.succ_lt_succ hlt))

/-- Whenever a vendor resolves, `calculate_cost` computes
`cost = round2 (r * c)` and `min = round2 (cost + round2 (r * m))`:
helper equation behind claim C1. -/
theorem calculate_cost_of_resolve (vendors : List Vendor) (r : ℚ) (src : String)
    (v : Vendor) (hres : resolveVendor vendors src = some v)
    (hr : 0 ≤ r) (hc : 0 ≤ v.cost_coefficient) (hm : 0 ≤ v.min_price_margin) :
    calculate_cost vendors r src =
      (round2 (r * v.cost_coefficient),
       round2 (round2 (r * v.cost_coefficient) + round2 (r * v.min_price_margin)),
       v.name) := by
  unfold calculate_cost
  rw [hres]
  simp only [Prod.mk.injEq]
  refine ⟨trivial, ?_, trivial⟩
  have hk : 0 ≤ rnd (r * v.cost_coefficient * 100) :=
    rnd_nonneg (by positivity)
  have hrm : 0 ≤ r * v.min_price_margin := mul_nonneg hr hm
  have hcost : round2 (r * v.cost_coefficient) =
      ((rnd (r * v.cost_coefficient * 100) : ℤ) : ℚ) / 100 := rfl
  rw [hcost, round2_add_div100 _ _ hk hrm,
    round2_add_div100 _ _ hk (round2_nonneg hrm)]
  have : round2 (round2 (r * v.min_price_margin)) = round2 (r * v.min_price_margin) := by
    unfold round2
    rw [div_mul_cancel₀ _ (by norm_num : (100 : ℚ) ≠ 0), rnd_intCast]
  rw [this]

/-- C1: for every retail price `r ≥ 0` and every resolved vendor with
coefficient in `(0,1)` and margin `≥ 0`, `calculate_cost` returns
`cost = round2 (r * c)` and `min = round2 (round2 (r * c) + round2 (r * m))`
(each rounding half away from zero to two decimals); in particular
`calculate_cost 3199 "Best Buy"` gives `(447.86, 767.76)` and
`calculate_cost 1000 "Wayfair"` gives `(70, 170)` on the test snapshot. -/
theorem calculate_cost_rounding_contract :
    (∀ (vendors : List Vendor) (r : ℚ) (src : String) (v : Vendor),
      resolveVendor vendors src = some v → 0 ≤ r →
      0 < v.cost_coefficient → v.cost_coefficient < 1 → 0 ≤ v.min_price_margin →
      calculate_cost vendors r src =
        (round2 (r * v.cost_coefficient),
         round2 (round2 (r * v.cost_coefficient) + round2 (r * v.min_price_margin)),
         v.name))
    ∧ calculate_cost testVendors 3199 "Best Buy" = (447.86, 767.76, "Best Buy")
    ∧ calculate_cost testVendors 1000 "Wayfair" = (70, 170, "Wayfair") := by
  refine ⟨fun vendors r src v hres hr hc0 _ hm =>
    calculate_cost_of_resolve vendors r src v hres hr (le_of_lt hc0) hm, ?_, ?_⟩
  · have h1 : round2 ((3199 : ℚ) * 0.14) = 447.86 := by
      rw [round2_val _ 44786 (by norm_num)]; norm_num
    have h2 : round2 ((447.86 : ℚ) + 3199 * 0.10) = 767.76 := by
      rw [round2_val _ 76776 (by norm_num)]; norm_num
    show (round2 ((3199 : ℚ) * 0.14),
          round2 (round2 ((3199 : ℚ) * 0.14) + 3199 * 0.10), "Best Buy") = _
    rw [h1, h2]
  · have h1 : round2 ((1000 : ℚ) * 0.07) = 70 := by
      rw [round2_val _ 7000 (by norm_num)]; norm_num
    have h2 : round2 ((70 : ℚ) + 1000 * 0.10) = 170 := by
      rw [round2_val _ 17000 (by norm_num)]; norm_num
    show (round2 ((1000 : ℚ) * 0.07),
          round2 (round2 ((1000 : ℚ) * 0.07) + 1000 * 0.10), "Wayfair") = _
    rw [h1, h2]

/-- Witness for C1: the rounding contract instantiated at the Best Buy
test vendor. -/
theorem calculate_cost_rounding_contract_witness :
    calculate_cost testVendors 3199 "Best Buy" =
      (round2 ((3199 : ℚ) * 0.14),
       round2 (round2 ((3199 : ℚ) * 0.14) + round2 ((3199 : ℚ) * 0.10)),
       "Best Buy") :=
  calculate_cost_rounding_contract.1 testVendors 3199 "Best Buy"
    ⟨"bestbuy", "Best Buy", 0.14, 0.10, true⟩ rfl (by norm_num) (by norm_num)
    (by norm_num) (by norm_num)

/-- C3: vendor resolution is a case-insensitive substring test, first
vendor in iteration order wins, with the vendor named exactly
`"Amazon Bstock"` as fallback; `calculate_cost 500 "Unknown Vendor"` on the
test snapshot resolves to `"Amazon Bstock"`. -/
theorem calculate_cost_vendor_resolution :
    (∀ (vendors : List Vendor) (r : ℚ) (src : String) (i : Nat) (h : i < vendors.length),
      vendorMatches src (vendors.get ⟨i, h⟩) = true →
      (∀ j (hj : j < vendors.length), j < i → vendorMatches src (vendors.get ⟨j, hj⟩) = false) →
      (calculate_cost vendors r src).2.2 = (vendors.get ⟨i, h⟩).name)
    ∧ (∀ (vendors : List Vendor) (r : ℚ) (src : String) (w : Vendor),
      (∀ v ∈ vendors, vendorMatches src v = false) →
      vendors.find? (fun v => v.name == "Amazon Bstock") = some w →
      (calculate_cost vendors r src).2.2 = w.name)
    ∧ (calculate_cost testVendors 500 "Unknown Vendor").2.2 = "Amazon Bstock" := by
  refine ⟨?_, ?_, rfl⟩
  · intro vendors r src i h hp hmin
    have hfind : vendors.find? (vendorMatches src) = some (vendors.get ⟨i, h⟩) :=
      find?_first (vendorMatches src) vendors i h hp hmin
    unfold calculate_cost resolveVendor
    rw [hfind]
  · intro vendors r src w hnone hfb
    have hfind : vendors.find? (vendorMatches src) = none :=
      List.find?_eq_none.mpr (fun x hx => by simp [hnone x hx])
    unfold calculate_cost resolveVendor
    rw [hfind, hfb]

/-- Witness for C3: the first-match branch at the Best Buy test vendor
(index 0 of the snapshot). -/
theorem calculate_cost_vendor_resolution_witness :
    (calculate_cost testVendors 500 "Best Buy").2.2 = "Best Buy" :=
  calculate_cost_vendor_resolution.1 testVendors 500 "Best Buy" 0 (by decide)
    (by decide) (fun j hj hlt => absurd hlt (Nat.not_lt_zero j))

/-- C5: `calculate_cost` is total and returns the sentinel
`(0, 0, "Unknown")` on an empty snapshot, and more generally whenever no
vendor matches and no vendor is named `"Amazon Bstock"`. -/
theorem calculate_cost_sentinel :
    (∀ (r : ℚ) (src : String), calculate_cost [] r src = (0, 0, "Unknown"))
    ∧ (∀ (vendors : List Vendor) (r : ℚ) (src : String),
        (∀ v ∈ vendors, vendorMatches src v = false) →
        (∀ v ∈ vendors, v.name ≠ "Amazon Bstock") →
        calculate_cost vendors r src = (0, 0, "Unknown")) := by
  refine ⟨fun r src => rfl, ?_⟩
  intro vendors r src hnone hnofb
  have h1 : vendors.find? (vendorMatches src) = none :=
    List.find?_eq_none.mpr (fun x hx => by simp [hnone x hx])
  have h2 : vendors.find? (fun v => v.name == "Amazon Bstock") = none :=
    List.find?_eq_none.mpr (fun x hx => by simp [hnofb x hx])
  unfold calculate_cost resolveVendor
  rw [h1, h2]

/-- Witness for C5: the no-match/no-fallback branch at the empty snapshot. -/
theorem calculate_cost_sentinel_witness :
    calculate_cost [] 500 "Unknown Vendor" = (0, 0, "Unknown") :=
  calculate_cost_sentinel.2 [] 500 "Unknown Vendor"
    (fun v hv => absurd hv (List.not_mem_nil v))
    (fun v hv => absurd hv (List.not_mem_nil v))

/-- C10: with nonnegative retail price and all margins nonnegative, the
returned minimum price is never below the returned cost price, in both the
resolved and the sentinel case. -/
theorem calculate_cost_min_ge_cost :
    ∀ (vendors : List Vendor) (r : ℚ) (src : String),
      0 ≤ r → (∀ v ∈ vendors, 0 ≤ v.min_price_margin) →
      (calculate_cost vendors r src).1 ≤ (calculate_cost vendors r src).2.1 := by
  intro vendors r src hr hmargins
  cases hres : resolveVendor vendors src with
  | none => simp [calculate_cost, hres]
  | some v =>
    have hmem : v ∈ vendors := by
      unfold resolveVendor at hres
      cases h1 : vendors.find? (vendorMatches src) with
      | some w =>
        rw [h1] at hres
        cases hres
        exact List.mem_of_find?_eq_some h1
      | none =>
        rw [h1] at hres
        exact List.mem_of_find?_eq_some hres
    have hm : 0 ≤ v.min_price_margin := hmargins v hmem
    unfold calculate_cost
    rw [hres]
    simp only
    have hfix : round2 (round2 (r * v.cost_coefficient)) =
        round2 (r * v.cost_coefficient) := round2_div100 _
    calc round2 (r * v.cost_coefficient)
        = round2 (round2 (r * v.cost_coefficient)) := hfix.symm
      _ ≤ round2 (round2 (r * v.cost_coefficient) + r * v.min_price_margin) :=
          round2_mono (le_add_of_nonneg_right (mul_nonneg hr hm))

/-- Witness for C10: instantiated at the test snapshot with retail 1. -/
theorem calculate_cost_min_ge_cost_witness :
    (calculate_cost testVendors 1 "Best Buy").1 ≤
      (calculate_cost testVendors 1 "Best Buy").2.1 :=
  calculate_cost_min_ge_cost testVendors 1 "Best Buy" (by norm_num)
    (by intro v hv; fin_cases hv <;> norm_num)

/-! ### Entity extractor (`nlp.rs`): reference data -/

/-- The static `BRANDS` list, in source order (including the duplicated
`"Bosch"` entry). -/
def BRANDS : List String :=
  [ "Samsung", "LG", "Sony", "Panasonic", "Sharp", "Toshiba",
    "GE", "General Electric", "Whirlpool", "KitchenAid",
    "Frigidaire", "Electrolux", "Bosch", "Miele",
    "Maytag", "Amana", "Jenn-Air", "Thermador", "Dacor",
    "Viking", "Wolf", "Sub-Zero", "Monogram",
    "Apple", "Dell", "HP", "Hewlett Packard", "Lenovo",
    "Asus", "Acer", "Microsoft", "Canon", "Nikon",
    "Bose", "JBL", "Harman Kardon", "Yamaha", "Denon",
    "Ashley", "IKEA", "La-Z-Boy", "Ethan Allen",
    "Pottery Barn", "West Elm", "Crate and Barrel",
    "DeWalt", "Milwaukee", "Makita", "Bosch", "Ryobi",
    "Craftsman", "Black & Decker", "Stanley" ]

/-- The static `STOP_WORDS` list, in source order. -/
def STOP_WORDS : List String :=
  [ "new", "box", "open", "sealed", "ship", "retail",
    "brand", "factory", "original", "genuine", "authentic",
    "warranty", "refurbished", "renewed", "like", "condition",
    "lot", "pallet", "mixed", "assorted", "various" ]

/-- The static `CATEGORIES` table, in source order. -/
def CATEGORIES : List (String × List String) :=
  [ ("Appliances", ["refrigerator", "fridge", "dishwasher", "washer",
                    "dryer", "oven", "range", "stove", "microwave",
                    "freezer", "cooktop"]),
    ("Electronics", ["tv", "television", "monitor", "laptop", "computer",
                     "tablet", "phone", "camera", "speaker", "headphone",
                     "soundbar", "receiver", "blu-ray", "dvd"]),
    ("Furniture", ["sofa", "couch", "chair", "table", "desk", "bed",
                   "dresser", "cabinet", "shelf", "bookcase", "nightstand"]),
    ("Tools", ["drill", "saw", "sander", "grinder", "wrench", "hammer",
               "tool set", "toolbox", "power tool", "hand tool"]),
    ("Home Decor", ["lamp", "mirror", "rug", "curtain", "pillow",
                    "artwork", "vase", "clock"]),
    ("Kitchen", ["blender", "mixer", "toaster", "coffee maker", "pot",
                 "pan", "knife set", "cookware"]) ]

/-- Result record of `EntityExtractor::extract`. -/
structure ExtractedEntities where
  normalized_title : String
  brand : Option String
  model : Option String
  category : Option String
deriving DecidableEq

/-! ### `normalize_title` -/

/-- One `Regex::replace_all` pass of the pattern `\b w \b` (for a literal
word `w`) replaced by the empty string: scan the text left to right; at a
position with original left neighbour `prev`, a match needs a boundary
before the first character, `w` as a prefix, and a boundary after its last
character; matched characters are dropped and scanning resumes after the
match (the left neighbour there is the last matched character). The `Nat`
argument counts matched characters still to drop, keeping the recursion
structural. -/
def stripWordGo (w : List Char) : Option Char → Nat → List Char → List Char
  | _, _, [] => []
  | _, skip + 1, c :: cs => stripWordGo w (some c) skip cs
  | prev, 0, c :: cs =>
    if bnd prev (some c) && startsL w (c :: cs) &&
        bnd (some (w.getLastD c)) ((c :: cs).drop w.length).head? then
      stripWordGo w (some c) (w.length - 1) cs
    else
      c :: stripWordGo w (some c) 0 cs

/-- `replace_all` of `\b w \b` with `""` over a text. -/
def stripWord (w : String) (text : List Char) : List Char :=
  match w.data with
  | [] => text
  | wh :: wt => stripWordGo (wh :: wt) none 0 text

/-- Maximal runs of characters satisfying `p` (used both for
`split_whitespace` and for regex word tokens); `cur` accumulates the
current run in reverse. -/
def runsAux (p : Char → Bool) (cur : List Char) : List Char → List (List Char)
  | [] => if cur.isEmpty then [] else [cur.reverse]
  | c :: cs =>
    if p c then runsAux p (c :: cur) cs
    else if cur.isEmpty then runsAux p [] cs
    else cur.reverse :: runsAux p [] cs

def runsOf (p : Char → Bool) (l : List Char) : List (List Char) := runsAux p [] l

/-- `Vec::join(" ")`. -/
def joinSpaces : List (List Char) → List Char
  | [] => []
  | [w] => w
  | w :: ws => w ++ ' ' :: joinSpaces ws

def isWs (c : Char) : Bool := c.isWhitespace

/-- Rust `str::trim`. -/
def trimWs (l : List Char) : List Char :=
  ((l.dropWhile isWs).reverse.dropWhile isWs).reverse

/-- The stop-word removal loop of `normalize_title`: one `replace_all`
pass per stop word, in list order. -/
def removeStopWords (l : List Char) : List Char :=
  STOP_WORDS.foldl (fun acc w => stripWord w acc) l

/-- `split_whitespace` + `join(" ")`. -/
def collapseWs (l : List Char) : List Char :=
  joinSpaces (runsOf (fun c => !c.isWhitespace) l)

/-- `chars().filter(|c| c.is_alphanumeric() || c.is_whitespace())`. -/
def keepAlnumWs (l : List Char) : List Char :=
  l.filter (fun c => c.isAlphanum || c.isWhitespace)

/-- `EntityExtractor::normalize_title`: lower-case, delete every stop word
as a whole word, collapse whitespace (`split_whitespace` + `join`), keep
only alphanumeric/whitespace characters, trim. -/
def normalize_title (title : String) : String :=
  String.mk (trimWs (keepAlnumWs (collapseWs (removeStopWords (lowerStr title).data))))

/-! ### `find_brand` and `find_category` -/

/-- `Regex::is_match` of `\b w \b` for a literal word `w`: some position
carries a boundary, then `w`, then a boundary. -/
def wordOccursGo (w : List Char) : Option Char → List Char → Bool
  | _, [] => false
  | prev, c :: cs =>
    (bnd prev (some c) && startsL w (c :: cs) &&
      bnd (some (w.getLastD c)) ((c :: cs).drop w.length).head?) ||
    wordOccursGo w (some c) cs

/-- `w` occurs in `text` as a whole word: the `is_match` test of the
pattern `\b w \b` built by `find_brand` (every word it is used with — a
brand or stop word — is nonempty). -/
def wholeWordB (w text : String) : Bool := wordOccursGo w.data none text.data

/-- `EntityExtractor::find_brand`: first brand (in list order) whose
lower-cased name occurs as a whole word in the lower-cased input. -/
def find_brand (normalized_title : String) : Option String :=
  BRANDS.find? (fun b => wholeWordB (lowerStr b) (lowerStr normalized_title))

/-- The per-category test of `find_category`: some keyword of the pair is
a substring of the lower-cased input. -/
def catMatches (normalized_title : String) (p : String × List String) : Bool :=
  p.2.any (fun k => strContainsB (lowerStr normalized_title) k)

/-- `EntityExtractor::find_category`: name of the first category (in table
order) one of whose keywords occurs as a substring. -/
def find_category (normalized_title : String) : Option String :=
  (CATEGORIES.find? (catMatches normalized_title)).map Prod.fst

/-! ### `find_model`

Each model pattern has the shape `\b( R )\b` where `R` matches only word
characters, so a regex match is exactly a maximal word-character run of the
haystack matched by `R` in full, the leftmost match is the first such run,
and capture group 1 is that whole run.  Each `R` below is therefore
embedded as a total-run recognizer; the letter/digit blocks of a run
decompose uniquely because the character classes are disjoint. -/

/-- The regex class `[A-Z]`. -/
def isUpperAZ (c : Char) : Bool := decide ('A' ≤ c) && decide (c ≤ 'Z')

/-- The regex class `[A-Z0-9]`. -/
def isAZ09 (c : Char) : Bool := isUpperAZ c || c.isDigit

/-- `SAMSUNG_MODEL`: `[UQ]N\d{2}[A-Z]+\d{2,5}[A-Z]*` as a total-run
recognizer. -/
def samsungTok (t : List Char) : Bool :=
  match t with
  | c1 :: c2 :: c3 :: c4 :: rest =>
    (c1 == 'U' || c1 == 'Q') && c2 == 'N' && c3.isDigit && c4.isDigit &&
      (let l1 := rest.takeWhile isUpperAZ
       let r1 := rest.dropWhile isUpperAZ
       let d2 := r1.takeWhile Char.isDigit
       let r2 := r1.dropWhile Char.isDigit
       let r3 := r2.dropWhile isUpperAZ
       !l1.isEmpty && decide (2 ≤ d2.length) && decide (d2.length ≤ 5) && r3.isEmpty)
  | _ => false

/-- `LG_MODEL`: `OLED\d{2}[A-Z0-9]+|\d{2}[A-Z]{4,}\d{2,}[A-Z]*` as a
total-run recognizer. -/
def lgTok (t : List Char) : Bool :=
  (match t with
   | 'O' :: 'L' :: 'E' :: 'D' :: d1 :: d2 :: rest =>
     d1.isDigit && d2.isDigit && !rest.isEmpty && rest.all isAZ09
   | _ => false) ||
  (match t with
   | d1 :: d2 :: rest =>
     d1.isDigit && d2.isDigit &&
       (let l1 := rest.takeWhile isUpperAZ
        let r1 := rest.dropWhile isUpperAZ
        let d3 := r1.takeWhile Char.isDigit
        let r2 := r1.dropWhile Char.isDigit
        let r3 := r2.dropWhile isUpperAZ
        decide (4 ≤ l1.length) && decide (2 ≤ d3.length) && r3.isEmpty)
   | _ => false)

/-- `GE_MODEL`: `[A-Z]{3}\d{4}[A-Z]{2,4}` as a total-run recognizer. -/
def geTok (t : List Char) : Bool :=
  let l1 := t.takeWhile isUpperAZ
  let r1 := t.dropWhile isUpperAZ
  let d := r1.takeWhile Char.isDigit
  let r2 := r1.dropWhile Char.isDigit
  let l2 := r2.takeWhile isUpperAZ
  let r3 := r2.dropWhile isUpperAZ
  decide (l1.length = 3) && decide (d.length = 4) &&
    decide (2 ≤ l2.length) && decide (l2.length ≤ 4) && r3.isEmpty

/-- `GENERIC_MODEL`: `[A-Z]{2,}\d{3,}[A-Z0-9]*` as a total-run
recognizer. -/
def genericTok (t : List Char) : Bool :=
  let l1 := t.takeWhile isUpperAZ
  let r1 := t.dropWhile isUpperAZ
  decide (2 ≤ l1.length) && decide (3 ≤ (r1.takeWhile Char.isDigit).length) &&
    (r1.dropWhile Char.isDigit).all isAZ09

/-- `UPC_CODE`: `\d{12,13}` as a total-run recognizer. -/
def upcTok (t : List Char) : Bool :=
  t.all Char.isDigit && decide (12 ≤ t.length) && decide (t.length ≤ 13)

/-- First capture of a `\b(R)\b` pattern on the upper-cased title: the
first word-character run recognized by `p`. -/
def firstTok (p : List Char → Bool) (raw : String) : Option String :=
  ((runsOf isWordChar (upperStr raw).data).find? p).map String.mk

/-- Rust `str::starts_with`. -/
def startsWithS (w m : String) : Bool := startsL w.data m.data

/-- `EntityExtractor::find_model`: the five patterns in precedence order on
the upper-cased raw title; a generic match starting with `NEW` or `BOX` is
rejected and falls through to the UPC rule; the UPC capture is returned
with a `UPC:` prefix. -/
def find_model (raw_title : String) : Option String :=
  match firstTok samsungTok raw_title with
  | some m => some m
  | none =>
    match firstTok lgTok raw_title with
    | some m => some m
    | none =>
      match firstTok geTok raw_title with
      | some m => some m
      | none =>
        match firstTok genericTok raw_title with
        | some m =>
          if startsWithS "NEW" m || startsWithS "BOX" m then
            match firstTok upcTok raw_title with
            | some d => some ("UPC:" ++ d)
            | none => none
          else some m
        | none =>
          match firstTok upcTok raw_title with
          | some d => some ("UPC:" ++ d)
          | none => none

/-! ### `extract` and `extract_screen_size` -/

/-- `EntityExtractor::extract`: normalization feeds brand and category
lookup; model extraction uses the raw title. -/
def extract (raw_title : String) : ExtractedEntities :=
  let normalized := normalize_title raw_title
  { normalized_title := normalized
    brand := find_brand normalized
    model := find_model raw_title
    category := find_category normalized }

/-- The optional marker words of the screen-size pattern, in alternation
order: `(inch|in|tv|television|monitor)`. -/
def sizeMarkers : List (List Char) :=
  ["inch".data, "in".data, "tv".data, "television".data, "monitor".data]

/-- Word boundary immediately after a just-consumed character `last`. -/
def bAfter (last : Char) (rest : List Char) : Bool := bnd (some last) rest.head?

/-- Match `(inch|in|tv|television|monitor)?\b` at `rest` (greedy group
first, then the empty alternative). -/
def markerAt (last : Char) (rest : List Char) : Bool :=
  sizeMarkers.any
    (fun m => startsL m rest && bAfter (m.getLastD last) (rest.drop m.length)) ||
  bAfter last rest

/-- Match `["'\s]?(inch|in|tv|television|monitor)?\b` at `rest` (greedy
optional separator first). -/
def sepTail (last : Char) (rest : List Char) : Bool :=
  (match rest with
   | c :: rs => (c == '"' || c == '\'' || c.isWhitespace) && markerAt c rs
   | [] => false) ||
  markerAt last rest

/-- Digits-to-number for the captured group (2–3 digits, so no `u32`
overflow concern). -/
def digitsToNat (ds : List Char) : Nat :=
  ds.foldl (fun a c => a * 10 + (c.toNat - 48)) 0

/-- Try `\b(\d{2,3})["'\s]?(inch|in|tv|television|monitor)?\b` at one
position whose original left neighbour is `prev`; greedy `\d{2,3}` tries
three digits before two. Returns the captured number. -/
def matchNumAt (prev : Option Char) (l : List Char) : Option Nat :=
  if isWordOpt prev then none
  else match l with
  | d1 :: d2 :: rest =>
    if d1.isDigit && d2.isDigit then
      match rest with
      | d3 :: rest2 =>
        if d3.isDigit && sepTail d3 rest2 then some (digitsToNat [d1, d2, d3])
        else if sepTail d2 rest then some (digitsToNat [d1, d2])
        else none
      | [] => if sepTail d2 [] then some (digitsToNat [d1, d2]) else none
    else none
  | _ => none

/-- Leftmost match of the screen-size pattern (first position, scanning
left to right, where `matchNumAt` succeeds). -/
def findNum : Option Char → List Char → Option Nat
  | _, [] => none
  | prev, c :: cs =>
    match matchNumAt prev (c :: cs) with
    | some n => some n
    | none => findNum (some c) cs

/-- `extract_screen_size`: the first captured 2–3 digit number of the
pattern on the lower-cased title, accepted only within `[15, 100]`. -/
def extract_screen_size (title : String) : Option Nat :=
  match findNum none (lowerStr title).data with
  | some n => if 15 ≤ n ∧ n ≤ 100 then some n else none
  | none => none

/-- A whitespace run of length at least two somewhere in the list. -/
def hasDoubleWs : List Char → Bool
  | a :: b :: t => (isWs a && isWs b) || hasDoubleWs (b :: t)
  | _ => false

/-- The first character exists and is whitespace. -/
def headIsWs : List Char → Bool
  | [] => false
  | c :: _ => isWs c

/-! ### Character-class lemmas (ASCII case conversion) -/

theorem uint32_le_iff (a b : UInt32) : a ≤ b ↔ a.toNat ≤ b.toNat := Iff.rfl

theorem char_isUpper_iff (c : Char) : c.isUpper = true ↔ 65 ≤ c.toNat ∧ c.toNat ≤ 90 := by
  simp only [Char.isUpper, Bool.and_eq_true, decide_eq_true_eq, ge_iff_le, uint32_le_iff]
  exact Iff.rfl

theorem toLower_of_not_upper {c : Char} (h : c.isUpper = false) : c.toLower = c := by
  rw [Char.toLower, if_neg]
  intro hc
  rw [← Bool.not_eq_true, char_isUpper_iff] at h
  exact h hc

theorem toLower_alnum_of_upper {c : Char} (h : c.isUpper = true) :
    (c.toLower).isAlphanum = true := by
  rw [char_isUpper_iff] at h
  rw [Char.toLower, if_pos ⟨h.1, h.2⟩]
  have hval : (Char.ofNat (c.toNat + 32)).toNat = c.toNat + 32 := by
    rw [Char.ofNat, dif_pos (Or.inl (by omega))]
    rfl
  have hlow : (Char.ofNat (c.toNat + 32)).isLower = true := by
    simp only [Char.isLower, Bool.and_eq_true, decide_eq_true_eq, ge_iff_le, uint32_le_iff]
    constructor
    · show (97 : UInt32).toNat ≤ _
      rw [show ((Char.ofNat (c.toNat + 32)).val).toNat = (Char.ofNat (c.toNat + 32)).toNat from rfl,
        hval, show (97 : UInt32).toNat = 97 from rfl]
      omega
    · show _ ≤ (122 : UInt32).toNat
      rw [show ((Char.ofNat (c.toNat + 32)).val).toNat = (Char.ofNat (c.toNat + 32)).toNat from rfl,
        hval, show (122 : UInt32).toNat = 122 from rfl]
      omega
  simp [Char.isAlphanum, Char.isAlpha, hlow]

theorem upper_alnum {c : Char} (h : c.isUpper = true) : c.isAlphanum = true := by
  simp [Char.isAlphanum, Char.isAlpha, h]

/-! ### Membership lemmas for whole-word matching -/

theorem startsL_mem {w l : List Char} (h : startsL w l = true) : ∀ c ∈ w, c ∈ l := by
  induction w generalizing l with
  | nil => intro c hc; simp at hc
  | cons a as ih =>
    cases l with
    | nil => simp [startsL] at h
    | cons b bs =>
      simp only [startsL, Bool.and_eq_true, beq_iff_eq] at h
      intro c hc
      rcases List.mem_cons.mp hc with hca | hcas
      · subst hca; rw [h.1]; exact List.mem_cons_self b bs
      · exact List.mem_cons_of_mem b (ih h.2 c hcas)

theorem wordOccursGo_mem {w l : List Char} {prev : Option Char}
    (h : wordOccursGo w prev l = true) : ∀ c ∈ w, c ∈ l := by
  induction l generalizing prev with
  | nil => simp [wordOccursGo] at h
  | cons b bs ih =>
    simp only [wordOccursGo, Bool.or_eq_true, Bool.and_eq_true] at h
    rcases h with ⟨⟨_, hst⟩, _⟩ | hrec
    · exact startsL_mem hst
    · intro c hc
      exact List.mem_cons_of_mem b (ih hrec c hc)

theorem wholeWordB_mem {w t : String} (h : wholeWordB w t = true) :
    ∀ c ∈ w.data, c ∈ t.data :=
  wordOccursGo_mem h

/-! ### Unfolding equations (kept as lemmas so that unification never has
to reduce the normalization pipeline on a symbolic title) -/

theorem data_mk (l : List Char) : (String.mk l).data = l := rfl

theorem normalize_title_data (s : String) : (normalize_title s).data =
    trimWs (keepAlnumWs (collapseWs (removeStopWords (lowerStr s).data))) :=
  data_mk _

theorem extract_fields (raw : String) : extract raw =
    ⟨normalize_title raw, find_brand (normalize_title raw), find_model raw,
     find_category (normalize_title raw)⟩ := rfl

theorem extract_normalized_eq (raw : String) :
    (extract raw).normalized_title = normalize_title raw := by
  rw [extract_fields]

theorem extract_brand_eq (raw : String) :
    (extract raw).brand = find_brand (normalize_title raw) := by
  rw [extract_fields]

theorem extract_model_eq (raw : String) :
    (extract raw).model = find_model raw := by
  rw [extract_fields]

theorem extract_category_eq (raw : String) :
    (extract raw).category = find_category (normalize_title raw) := by
  rw [extract_fields]

theorem find_brand_eq (nt : String) : find_brand nt =
    BRANDS.find? (fun x => wholeWordB (lowerStr x) (lowerStr nt)) := rfl

theorem find_category_eq (nt : String) : find_category nt =
    (CATEGORIES.find? (catMatches nt)).map Prod.fst := rfl

/-! ### Characters of the normalized title -/

theorem trimWs_subset (l : List Char) : ∀ c ∈ trimWs l, c ∈ l := by
  intro c hc
  unfold trimWs at hc
  rw [List.mem_reverse] at hc
  have hc2 := (List.dropWhile_sublist isWs).subset hc
  rw [List.mem_reverse] at hc2
  exact (List.dropWhile_sublist isWs).subset hc2

theorem normalize_title_chars (s : String) :
    ∀ c ∈ (normalize_title s).data, (c.isAlphanum || c.isWhitespace) = true := by
  intro c hc
  rw [normalize_title_data] at hc
  exact (List.mem_filter.mp (trimWs_subset _ _ hc)).2

/-! ### No leading/trailing whitespace after trim -/

theorem headIsWs_dropWhile (l : List Char) : headIsWs (l.dropWhile isWs) = false := by
  have h := List.head?_dropWhile_not isWs l
  cases hd : l.dropWhile isWs with
  | nil => rfl
  | cons c cs =>
    rw [hd] at h
    simpa [headIsWs] using h

theorem getLast?_dropWhile (p : Char → Bool) (l : List Char) (h : l.dropWhile p ≠ []) :
    (l.dropWhile p).getLast? = l.getLast? := by
  induction l with
  | nil => simp [List.dropWhile] at h
  | cons a t ih =>
    rw [List.dropWhile_cons] at h ⊢
    by_cases hp : p a = true
    · rw [if_pos hp] at h ⊢
      cases t with
      | nil => simp [List.dropWhile] at h
      | cons b t' =>
        rw [List.getLast?_cons_cons]
        exact ih h
    · rw [if_neg hp]

theorem trimWs_no_edge (l : List Char) :
    headIsWs (trimWs l) = false ∧ headIsWs (trimWs l).reverse = false := by
  unfold trimWs
  constructor
  · cases hY : ((l.dropWhile isWs).reverse.dropWhile isWs).reverse with
    | nil => rfl
    | cons c cs =>
      show isWs c = false
      have hlast : ((l.dropWhile isWs).reverse.dropWhile isWs).getLast? = some c := by
        rw [← List.head?_reverse, hY]
        rfl
      have hne : (l.dropWhile isWs).reverse.dropWhile isWs ≠ [] := by
        intro he
        rw [he] at hlast
        simp at hlast
      rw [getLast?_dropWhile isWs _ hne, List.getLast?_reverse] at hlast
      have h := List.head?_dropWhile_not isWs l
      rw [hlast] at h
      simpa using h
  · rw [List.reverse_reverse]
    exact headIsWs_dropWhile _

/-- C4 counterexample: the claimed invariant fails on titles with
punctuation. Stripping the non-alphanumeric characters of `"n-e-w"`
creates the stop word `"new"` as the whole normalized title, and stripping
`"-"` out of `"a - b"` leaves two adjacent spaces. -/
theorem extract_normalized_cex :
    (STOP_WORDS.any (fun w => wholeWordB w (extract "n-e-w").normalized_title)) = true
    ∧ hasDoubleWs (extract "a - b").normalized_title.data = true := by
  exact ⟨by decide, by decide⟩

/-- C4 (amended): for every input title, the `normalized_title` field
returned by `extract` has no leading and no trailing whitespace (the
stop-word-freedom and single-spacing parts of the claim fail for titles
with punctuation, since special characters are stripped only after
stop-word removal and whitespace collapsing). -/
theorem extract_normalized_no_edge_ws (title : String) :
    headIsWs (extract title).normalized_title.data = false
    ∧ headIsWs (extract title).normalized_title.data.reverse = false := by
  rw [extract_normalized_eq, normalize_title_data]
  exact trimWs_no_edge _

/-- C9: `extract` can only return a brand whose name consists of
alphanumeric and whitespace characters: normalization strips every other
character from the title, so brand names such as `"Black & Decker"`,
`"La-Z-Boy"`, `"Jenn-Air"` or `"Sub-Zero"` can never whole-word match the
normalized title. -/
theorem find_brand_chars_generic (nt b : String)
    (hnt : ∀ c ∈ nt.data, (c.isAlphanum || c.isWhitespace) = true)
    (hfb : find_brand nt = some b) :
    b.data.all (fun c => c.isAlphanum || c.isWhitespace) = true := by
  have hfind : BRANDS.find?
      (fun x => wholeWordB (lowerStr x) (lowerStr nt)) = some b := hfb
  have hww : wholeWordB (lowerStr b) (lowerStr nt) = true := by
    have h4 := List.find?_some hfind
    exact h4
  rw [List.all_eq_true]
  intro c hcb
  have h1 : c.toLower ∈ (lowerStr b).data := List.mem_map_of_mem Char.toLower hcb
  have h2 : c.toLower ∈ (lowerStr nt).data := wholeWordB_mem hww _ h1
  have h3 : ∃ d ∈ nt.data, d.toLower = c.toLower := List.mem_map.mp h2
  obtain ⟨d, hd, hde⟩ := h3
  have hdq : (d.isAlphanum || d.isWhitespace) = true := hnt d hd
  by_cases hu : c.isUpper = true
  · simp [upper_alnum hu]
  · have hu' : c.isUpper = false := by revert hu; cases c.isUpper <;> simp
    have hcl : c.toLower = c := toLower_of_not_upper hu'
    by_cases hud : d.isUpper = true
    · have halnum : (d.toLower).isAlphanum = true := toLower_alnum_of_upper hud
      rw [hde, hcl] at halnum
      simp [halnum]
    · have hud' : d.isUpper = false := by revert hud; cases d.isUpper <;> simp
      have hdl : d.toLower = d := toLower_of_not_upper hud'
      have hcd : c = d := by rw [← hcl, ← hde, hdl]
      rw [hcd]
      exact hdq

/-- C9: `extract` can only return a brand whose name consists of
alphanumeric and whitespace characters: normalization strips every other
character from the title, so brand names such as `"Black & Decker"`,
`"La-Z-Boy"`, `"Jenn-Air"` or `"Sub-Zero"` can never whole-word match the
normalized title. -/
theorem extract_brand_chars (title b : String)
    (h : (extract title).brand = some b) :
    b.data.all (fun c => c.isAlphanum || c.isWhitespace) = true :=
  find_brand_chars_generic (normalize_title title) b (normalize_title_chars title)
    (by rw [← extract_brand_eq]; exact h)

/-- Witness for C9: the brand resolved for `"samsung tv"` is all
alphanumeric/whitespace. -/
theorem extract_brand_chars_witness :
    ("Samsung" : String).data.all (fun c => c.isAlphanum || c.isWhitespace) = true :=
  extract_brand_chars "samsung tv" "Samsung" (by decide)

/-- C6: the brand returned by `extract` is the first brand in the static
list's order whose name whole-word matches the normalized lower-cased
title (case-insensitively), and `none` when no brand matches;
`"samsung tv"` and `"SAMSUNG TV"` agree, and `"samsungite"` does not match
`"Samsung"`. -/
theorem extract_brand_first :
    (∀ (title : String) (i : Nat) (h : i < BRANDS.length),
      wholeWordB (lowerStr (BRANDS.get ⟨i, h⟩))
        (lowerStr (extract title).normalized_title) = true →
      (∀ j (hj : j < BRANDS.length), j < i →
        wholeWordB (lowerStr (BRANDS.get ⟨j, hj⟩))
          (lowerStr (extract title).normalized_title) = false) →
      (extract title).brand = some (BRANDS.get ⟨i, h⟩))
    ∧ (∀ title : String,
        (∀ b ∈ BRANDS,
          wholeWordB (lowerStr b) (lowerStr (extract title).normalized_title) = false) →
        (extract title).brand = none)
    ∧ (extract "samsung tv").brand = (extract "SAMSUNG TV").brand
    ∧ (extract "samsung tv").brand = some "Samsung"
    ∧ (extract "samsungite").brand = none := by
  refine ⟨?_, ?_, by decide, by decide, by decide⟩
  · intro title i h hp hmin
    rw [extract_normalized_eq] at hp hmin
    rw [extract_brand_eq, find_brand_eq]
    exact find?_first _ BRANDS i h hp hmin
  · intro title hnone
    rw [extract_normalized_eq] at hnone
    rw [extract_brand_eq, find_brand_eq]
    exact List.find?_eq_none.mpr (fun x hx => by simp [hnone x hx])

/-- Witness for C6: the first-match branch at brand index 0 on
`"samsung tv"`. -/
theorem extract_brand_first_witness :
    (extract "samsung tv").brand = some "Samsung" :=
  extract_brand_first.1 "samsung tv" 0 (by decide) (by decide)
    (fun j hj hlt => absurd hlt (Nat.not_lt_zero j))

/-- C7: the category returned by `extract` is the name of the first
(category, keywords) pair in table order with a keyword occurring as a
substring of the normalized title, and `none` otherwise; the three
spec examples hold. -/
theorem extract_category_first :
    (∀ (title : String) (i : Nat) (h : i < CATEGORIES.length),
      catMatches (extract title).normalized_title (CATEGORIES.get ⟨i, h⟩) = true →
      (∀ j (hj : j < CATEGORIES.length), j < i →
        catMatches (extract title).normalized_title (CATEGORIES.get ⟨j, hj⟩) = false) →
      (extract title).category = some (CATEGORIES.get ⟨i, h⟩).1)
    ∧ (∀ title : String,
        (∀ p ∈ CATEGORIES, catMatches (extract title).normalized_title p = false) →
        (extract title).category = none)
    ∧ (extract "Samsung Refrigerator").category = some "Appliances"
    ∧ (extract "Leather Sofa").category = some "Furniture"
    ∧ (extract "Mystery Item").category = none := by
  refine ⟨?_, ?_, by decide, by decide, by decide⟩
  · intro title i h hp hmin
    rw [extract_normalized_eq] at hp hmin
    rw [extract_category_eq, find_category_eq,
      find?_first (catMatches (normalize_title title)) CATEGORIES i h hp hmin]
    rfl
  · intro title hnone
    rw [extract_normalized_eq] at hnone
    rw [extract_category_eq, find_category_eq,
      List.find?_eq_none.mpr (fun x hx => by simp [hnone x hx])]
    rfl

/-- Witness for C7: the first-match branch at category index 0 on
`"Samsung Refrigerator"`. -/
theorem extract_category_first_witness :
    (extract "Samsung Refrigerator").category = some "Appliances" :=
  extract_category_first.1 "Samsung Refrigerator" 0 (by decide) (by decide)
    (fun j hj hlt => absurd hlt (Nat.not_lt_zero j))

/-- C2: `find_model` tries the five patterns on the upper-cased raw title
in the fixed order Samsung, LG, GE, generic (with `NEW`/`BOX` rejection),
UPC (with `UPC:` prefix), first hit wins, `none` when every rule fails;
the Samsung example extracts `UN65TU8000FXZA` and `"NEW2024"` yields no
model. -/
theorem find_model_precedence :
    (∀ (raw m : String), firstTok samsungTok raw = some m → find_model raw = some m)
    ∧ (∀ (raw m : String), firstTok samsungTok raw = none →
        firstTok lgTok raw = some m → find_model raw = some m)
    ∧ (∀ (raw m : String), firstTok samsungTok raw = none → firstTok lgTok raw = none →
        firstTok geTok raw = some m → find_model raw = some m)
    ∧ (∀ (raw m : String), firstTok samsungTok raw = none → firstTok lgTok raw = none →
        firstTok geTok raw = none → firstTok genericTok raw = some m →
        (startsWithS "NEW" m || startsWithS "BOX" m) = false → find_model raw = some m)
    ∧ (∀ (raw m d : String), firstTok samsungTok raw = none → firstTok lgTok raw = none →
        firstTok geTok raw = none → firstTok genericTok raw = some m →
        (startsWithS "NEW" m || startsWithS "BOX" m) = true →
        firstTok upcTok raw = some d → find_model raw = some ("UPC:" ++ d))
    ∧ (∀ (raw m : String), firstTok samsungTok raw = none → firstTok lgTok raw = none →
        firstTok geTok raw = none → firstTok genericTok raw = some m →
        (startsWithS "NEW" m || startsWithS "BOX" m) = true →
        firstTok upcTok raw = none → find_model raw = none)
    ∧ (∀ (raw d : String), firstTok samsungTok raw = none → firstTok lgTok raw = none →
        firstTok geTok raw = none → firstTok genericTok raw = none →
        firstTok upcTok raw = some d → find_model raw = some ("UPC:" ++ d))
    ∧ (∀ raw : String, firstTok samsungTok raw = none → firstTok lgTok raw = none →
        firstTok geTok raw = none → firstTok genericTok raw = none →
        firstTok upcTok raw = none → find_model raw = none)
    ∧ find_model "Samsung UN65TU8000FXZA 65\" 4K UHD TV" = some "UN65TU8000FXZA"
    ∧ find_model "NEW2024" = none := by
  refine ⟨?_, ?_, ?_, ?_, ?_, ?_, ?_, ?_, by decide, by decide⟩
  · intro raw m h1
    simp only [find_model, h1]
  · intro raw m h1 h2
    simp only [find_model, h1, h2]
  · intro raw m h1 h2 h3
    simp only [find_model, h1, h2, h3]
  · intro raw m h1 h2 h3 h4 hrej
    simp only [find_model, h1, h2, h3, h4, hrej]
    rfl
  · intro raw m d h1 h2 h3 h4 hrej h5
    simp only [find_model, h1, h2, h3, h4, hrej, h5]
    rfl
  · intro raw m h1 h2 h3 h4 hrej h5
    simp only [find_model, h1, h2, h3, h4, hrej, h5]
    rfl
  · intro raw d h1 h2 h3 h4 h5
    simp only [find_model, h1, h2, h3, h4, h5]
  · intro raw h1 h2 h3 h4 h5
    simp only [find_model, h1, h2, h3, h4, h5]

/-- Witness for C2: the Samsung rule fires first on the spec's example
title. -/
theorem find_model_precedence_witness :
    find_model "Samsung UN65TU8000FXZA 65\" 4K UHD TV" = some "UN65TU8000FXZA" :=
  find_model_precedence.1 "Samsung UN65TU8000FXZA 65\" 4K UHD TV" "UN65TU8000FXZA"
    (by decide)

/-- C8: `extract_screen_size` returns the number located by the pattern
(on the lower-cased title) only when it lies within `[15, 100]`, and
`none` otherwise; 65 is accepted in the spec's example and 999 is
rejected. -/
theorem extract_screen_size_bounds :
    (∀ (title : String) (n : Nat), extract_screen_size title = some n →
      findNum none (lowerStr title).data = some n ∧ 15 ≤ n ∧ n ≤ 100)
    ∧ (∀ title : String, findNum none (lowerStr title).data = none →
        extract_screen_size title = none)
    ∧ (∀ (title : String) (n : Nat), findNum none (lowerStr title).data = some n →
        ¬(15 ≤ n ∧ n ≤ 100) → extract_screen_size title = none)
    ∧ extract_screen_size "Samsung 65\" TV" = some 65
    ∧ extract_screen_size "999 inch invalid" = none := by
  refine ⟨?_, ?_, ?_, by decide, by decide⟩
  · intro title n h
    unfold extract_screen_size at h
    cases hf : findNum none (lowerStr title).data with
    | none => rw [hf] at h; simp at h
    | some k =>
      rw [hf] at h
      change (if 15 ≤ k ∧ k ≤ 100 then some k else none) = some n at h
      by_cases hr : 15 ≤ k ∧ k ≤ 100
      · rw [if_pos hr] at h
        injection h with hkn
        subst hkn
        exact ⟨rfl, hr⟩
      · rw [if_neg hr] at h
        simp at h
  · intro title h
    unfold extract_screen_size
    rw [h]
  · intro title n h hr
    unfold extract_screen_size
    rw [h]
    change (if 15 ≤ n ∧ n ≤ 100 then some n else none) = none
    rw [if_neg hr]

/-- Witness for C8: the accepted-range branch on the spec's example. -/
theorem extract_screen_size_bounds_witness :
    findNum none (lowerStr "Samsung 65\" TV").data = some 65 ∧ 15 ≤ 65 ∧ 65 ≤ 100 :=
  extract_screen_size_bounds.1 "Samsung 65\" TV" 65 (by decide)

end Sugarland
